import Mathlib

/-!
# Verification of the reporting/analytics core of `project_roar`

Shallow embedding of the aggregation and skill-matching computations of the
repository (`reports/views.py` and `resume_analyzer/core.py`).  Domain rows
(enrollments, attendance rows, invoices, payments, teachers) are modelled as
structures over `Nat`/`String`/`ℚ`; each report computation is translated as
a pure function over a snapshot (a list of rows), following the ORM queries
in the source line by line.  Strings of free text handled by the resume
analyzer are modelled as `List Char`.
-/

namespace ProjectRoar

/-! ## Report-domain data model

The Django model classes for enrollments, attendance and fees live in
`courses/models.py`, `attendance/models.py` and `fees/models.py`.  The fields
used by `reports/views.py` are reproduced here; the status string of each row
is kept as an arbitrary `String`, exactly as stored in the database. -/

/-- An `Enrollment` row: a (student, course) pair with a status string.
Courses and students are identified by their primary keys. -/
structure Enrollment where
  student : Nat
  course : Nat
  status : String
deriving DecidableEq, Repr

/-- A `StudentAttendance` row: child of an `AttendanceRecord`, so it carries
the course of its attendance record and a status string. -/
structure SAttendance where
  course : Nat
  status : String
deriving DecidableEq, Repr

/-- A `FeeInvoice` row: student, total amount, cached paid amount, status. -/
structure FeeInvoice where
  student : Nat
  total_amount : ℚ
  paid_amount : ℚ
  status : String
deriving DecidableEq, Repr

/-- A `Payment` row: child of an invoice, with an amount and a method. -/
structure Payment where
  amount : ℚ
  payment_method : String
deriving DecidableEq, Repr

/-- A `Teacher` row: gender and experience in years
(`experience = models.PositiveIntegerField`). -/
structure Teacher where
  gender : String
  experience : Nat
deriving DecidableEq, Repr

/-! ## Course report (`course_report`, `reports/views.py` lines 88-112) -/

/-- Source: `Enrollment.objects.filter(course=course, status=st).count()`. -/
def countEnrollments (c : Nat) (st : String) (es : List Enrollment) : Nat :=
  (es.filter (fun e => e.course == c && e.status == st)).length

/-- Per-course enrollment breakdown of `course_report`:
`{"active": ..., "completed": ..., "dropped": ..., "total": active + completed + dropped}`. -/
structure CourseEnrollmentRow where
  active : Nat
  completed : Nat
  dropped : Nat
  total : Nat
deriving DecidableEq, Repr

/-- The dictionary entry `course_enrollments[course]` computed by
`course_report` for a course `c` over the enrollment snapshot `es`. -/
def course_enrollment_row (c : Nat) (es : List Enrollment) : CourseEnrollmentRow :=
  let active := countEnrollments c "active" es
  let completed := countEnrollments c "completed" es
  let dropped := countEnrollments c "dropped" es
  ⟨active, completed, dropped, active + completed + dropped⟩

/-- Source: `Course.objects.annotate(student_count=Count("enrollments"))` for course
`c`: the number of enrollment rows referencing the course, any status. -/
def enrolled_student_count (c : Nat) (es : List Enrollment) : Nat :=
  (es.filter (fun e => e.course == c)).length

/-- Modelled from the spec: `courses/models.py` (the `Enrollment` model class
with its status choices) is not part of the sources; per the data model of the spec,
an enrollment status is one of `active`, `completed`, `dropped`. -/
def EnrollmentStatusWF (es : List Enrollment) : Prop :=
  ∀ e ∈ es, e.status = "active" ∨ e.status = "completed" ∨ e.status = "dropped"

instance (es : List Enrollment) : Decidable (EnrollmentStatusWF es) := by
  unfold EnrollmentStatusWF; infer_instance

/-! ## Teacher report (`teacher_report`, `reports/views.py` lines 68-84) -/

/-- Source: `Teacher.objects.aggregate(ex=Avg("experience"))["ex"] or 0`: the Django
`Avg` aggregate is the sum of the field over the count of rows, and is `None`
(turned into `0` by `or 0`) when there are no rows. -/
def avg_experience (ts : List Teacher) : ℚ :=
  if ts.isEmpty then 0
  else ((ts.map (fun t => (t.experience : ℚ))).sum) / (ts.length : ℚ)

/-! ## Fee report (`fee_report` lines 151-173, `fee_report_pdf` lines 657-664) -/

/-- Source: `FeeInvoice.objects.aggregate(t=Sum("total_amount"))["t"] or 0`. -/
def total_invoiced (invs : List FeeInvoice) : ℚ :=
  (invs.map (fun i => i.total_amount)).sum

/-- Source: `Payment.objects.aggregate(p=Sum("amount"))["p"] or 0`. -/
def total_paid (pays : List Payment) : ℚ :=
  (pays.map (fun p => p.amount)).sum

/-- Source: `total_pending = total_amount - total_paid` (identical in `fee_report`
and `fee_report_pdf`). -/
def total_pending (invs : List FeeInvoice) (pays : List Payment) : ℚ :=
  total_invoiced invs - total_paid pays

/-! ## Attendance report (`attendance_report`, `reports/views.py` lines 116-147) -/

/-- Source: `StudentAttendance.objects.filter(...status=st).count()` over a row
snapshot. -/
def countAttendance (st : String) (rows : List SAttendance) : Nat :=
  (rows.filter (fun r => r.status == st)).length

/-- Source: `StudentAttendance.objects.filter(attendance_record__course=course)`. -/
def courseRows (c : Nat) (rows : List SAttendance) : List SAttendance :=
  rows.filter (fun r => r.course == c)

/-- Per-course dictionary entry of `attendance_report`: status counts, their
sum `total`, and `present_percentage = (pres / tot * 100) if tot else 0`. -/
structure AttendanceBreakdown where
  present : Nat
  absent : Nat
  late : Nat
  excused : Nat
  total : Nat
  present_percentage : ℚ
deriving DecidableEq, Repr

/-- The breakdown computed by `attendance_report` over a list of
student-attendance rows. -/
def attendance_breakdown (rows : List SAttendance) : AttendanceBreakdown :=
  let pres := countAttendance "present" rows
  let absn := countAttendance "absent" rows
  let late := countAttendance "late" rows
  let exc := countAttendance "excused" rows
  let tot := pres + absn + late + exc
  ⟨pres, absn, late, exc, tot, if tot = 0 then 0 else (pres : ℚ) / (tot : ℚ) * 100⟩

/-- The `course_attendance` dictionary of `attendance_report`: one entry per
course of the snapshot whose row set is non-empty (`records.exists()`). -/
def course_attendance (courses : List Nat) (rows : List SAttendance) :
    List (Nat × AttendanceBreakdown) :=
  (courses.filter (fun c => !(courseRows c rows).isEmpty)).map
    (fun c => (c, attendance_breakdown (courseRows c rows)))

/-- Modelled from the spec: `attendance/models.py` (the `StudentAttendance`
model class with its status choices) is not part of the sources; per the
data model of the spec, a student-attendance status is one of `present`,
`absent`, `late`, `excused`. -/
def AttendanceStatusWF (rows : List SAttendance) : Prop :=
  ∀ r ∈ rows, r.status = "present" ∨ r.status = "absent" ∨
    r.status = "late" ∨ r.status = "excused"

instance (rows : List SAttendance) : Decidable (AttendanceStatusWF rows) := by
  unfold AttendanceStatusWF; infer_instance

/-! ## Resume analyzer (`resume_analyzer/core.py`)

Free text is modelled as `List Char`.  Python string operations used by the
source (`str.lower`, `str.title`, substring test, the regex
`\b<kw>\b` word-boundary search, `"\n".join`, `sorted`) are translated
below for the ASCII fragment the vocabulary and the analyzed texts live in. -/

/-- Free text: a Python string as a list of characters. -/
abbrev Text := List Char

/-- Source: `str.lower` per character (ASCII). -/
def lowerChar (c : Char) : Char :=
  if 65 ≤ c.toNat ∧ c.toNat ≤ 90 then Char.ofNat (c.toNat + 32) else c

/-- Source: `str.upper` per character (ASCII); used by `str.title`. -/
def upperChar (c : Char) : Char :=
  if 97 ≤ c.toNat ∧ c.toNat ≤ 122 then Char.ofNat (c.toNat - 32) else c

/-- A regex word character (`\w`): letter, digit, or underscore. -/
def isWordChar (c : Char) : Bool :=
  c.isAlphanum || c == '_'

/-- Python whitespace (the characters relevant to line/space re-formatting). -/
def isPyWs (c : Char) : Bool :=
  c == ' ' || c == '\t' || c == '\n' || c == '\r'

/-- Whitespace other than the plain space character. -/
def isOtherWs (c : Char) : Bool :=
  c == '\t' || c == '\n' || c == '\r'

/-- Whether position `i` of `l` holds a word character (`false` out of range). -/
def wordAtIdx (l : Text) (i : Nat) : Bool :=
  match l[i]? with
  | some c => isWordChar c
  | none => false

/-- The regex `\b` assertion at position `i` (`0 ≤ i ≤ l.length`): the
characters on the two sides of the position disagree on word-membership,
with out-of-range counting as a non-word character. -/
def boundaryAt (l : Text) (i : Nat) : Bool :=
  (match i with
   | 0 => false
   | j + 1 => wordAtIdx l j) != wordAtIdx l i

/-- Source: `kw` occurs in `l` starting at index `i`. -/
def occursAt (kw l : Text) (i : Nat) : Bool :=
  decide ((l.drop i).take kw.length = kw)

/-- Python `kw in text`: `kw` occurs somewhere in `l`. -/
def isSubstringOf (kw l : Text) : Bool :=
  (List.range (l.length + 1)).any (fun i => occursAt kw l i)

/-- Source: `re.search(r"\b" + re.escape(kw) + r"\b", text)`: some occurrence of the
literal `kw` flanked by word boundaries. -/
def matchesWholeWord (kw l : Text) : Bool :=
  (List.range (l.length + 1)).any
    (fun i => boundaryAt l i && occursAt kw l i && boundaryAt l (i + kw.length))

/-- Source: `str.title`, one character at a time: a letter following a cased (here:
alphabetic) character is lowered, any other letter is uppered. -/
def titleAux : Bool → Text → Text
  | _, [] => []
  | prevAlpha, c :: cs =>
    (if c.isAlpha then (if prevAlpha then lowerChar c else upperChar c) else c)
      :: titleAux c.isAlpha cs

/-- Python `str.title` (ASCII). -/
def titleCase (l : Text) : Text := titleAux false l

/-- Python `sorted` comparison on strings: lexicographic by code point. -/
def lexLe : Text → Text → Bool
  | [], _ => true
  | _ :: _, [] => false
  | a :: as, b :: bs => if a = b then lexLe as bs else decide (a.toNat < b.toNat)

/-- Python `sorted` on a list of strings. -/
def sortLex (l : List Text) : List Text :=
  List.insertionSort (fun a b => lexLe a b = true) l

/-- Source: `list(dict.fromkeys(...))`: drop duplicates keeping first occurrences. -/
def pyDedupAux (seen : List Text) : List Text → List Text
  | [] => []
  | k :: ks => if k ∈ seen then pyDedupAux seen ks else k :: pyDedupAux (k :: seen) ks

/-- Source: `list(dict.fromkeys(...))` over a list of strings. -/
def pyDedup (l : List Text) : List Text := pyDedupAux [] l

/-- The literal `_SKILL_KEYWORDS` list of `resume_analyzer/core.py`. -/
def rawSkillKeywords : List String :=
  ["python", "java", "c++", "c#", "javascript", "typescript", "sql", "nosql", "html", "css",
   "react", "angular", "vue", "node.js", "node", "django", "flask", "spring", "hibernate",
   "rest", "api", "graphql", "jpa", "oop", "agile", "scrum", "kanban",
   "oracle", "postgresql", "mysql", "mongodb", "redis", "docker", "kubernetes", "aws", "azure",
   "google cloud", "gcp", "ci/cd", "jenkins", "git", "github", "gitlab", "bitbucket",
   "unit testing", "integration testing", "selenium", "appium", "jira", "trello", "slack",
   "machine learning", "deep learning", "data analysis", "data science",
   "artificial intelligence",
   "nlp", "computer vision", "tensorflow", "pytorch", "keras", "scikit-learn", "pandas",
   "numpy",
   "matplotlib", "seaborn", "tableau", "power bi",
   "design patterns", "mvc", "microservices", "soap", "json", "xml", "web development",
   "backend development", "frontend development", "full stack development",
   "software architecture", "software design", "problem-solving", "team collaboration",
   "communication", "data structures and algorithm", "object oriented programming"]

/-- Source: `_SKILL_KEYWORDS = list(dict.fromkeys(k.lower() for k in _SKILL_KEYWORDS))`. -/
def skillKeywords : List Text :=
  pyDedup (rawSkillKeywords.map (fun s => s.toList.map lowerChar))

/-- One vocabulary term checked against the lowered text: multi-word terms as
substrings, single-word terms with the word-boundary regex. -/
def keywordFound (textLower : Text) (kw : Text) : Bool :=
  if kw.contains ' ' then isSubstringOf kw textLower else matchesWholeWord kw textLower

/-- The `found` set of `extract_skills` before display normalization.  The
optional spaCy model is abstracted as `nlp : Option (List Text)`, the token
texts it would produce on the input; `none` models the unavailable model
(`_nlp is None`), in which case keyword matching alone contributes. -/
def foundSkills (nlp : Option (List Text)) (text : Text) : List Text :=
  let textLower := text.map lowerChar
  let kwFound := skillKeywords.filter (keywordFound textLower)
  match nlp with
  | none => kwFound
  | some toks =>
      kwFound ++ (toks.map (fun t => t.map lowerChar)).filter
        (fun t => skillKeywords.contains t)

/-- Source: `extract_skills` with the NLP collaborator made explicit:
`sorted({s.title() for s in found})`, and `[]` on empty text. -/
def extractSkillsNlp (nlp : Option (List Text)) (text : Text) : List Text :=
  if text.isEmpty then []
  else sortLex (((foundSkills nlp text).map titleCase).dedup)

/-- Source: `extract_skills` as deployed when spaCy is unavailable (`_nlp = None`). -/
def extract_skills (text : Text) : List Text := extractSkillsNlp none text

/-- Source: `compare_skills`: job skills whose lower-casing is not among the lowered
resume skills, in job order. -/
def compare_skills (resume_skills job_skills : List Text) : List Text :=
  let resume_set := resume_skills.map (fun s => s.map lowerChar)
  job_skills.filter (fun s => !(resume_set.contains (s.map lowerChar)))

/-- Source: `calculate_ats_percentage`: `0.0` for an empty job list, otherwise
`len(matched) / len(job_skills) * 100` where `matched` is the intersection of
the lowered skill sets. -/
def calculate_ats_percentage (resume_skills job_skills : List Text) : ℚ :=
  if job_skills.isEmpty then 0
  else
    let resumeLow := resume_skills.map (fun s => s.map lowerChar)
    let jobLow := job_skills.map (fun s => s.map lowerChar)
    let matched := resumeLow.dedup.filter (fun s => jobLow.contains s)
    ((matched.length : ℚ) / (job_skills.length : ℚ)) * 100

/-- Source: `extract_text_from_pdf`: the PyPDF2 reader is abstracted as the outcome
`readResult` of reading the artifact — an exception message, or the list of
page texts (`None` when a page yields no text).  Falsy page texts are
skipped and the rest joined with newlines; a reader exception is re-raised
as `RuntimeError("Failed to read PDF file: ...")`. -/
def extract_text_from_pdf (readResult : Except String (List (Option Text))) :
    Except String Text :=
  match readResult with
  | Except.error e => Except.error ("Failed to read PDF file: " ++ e)
  | Except.ok pages =>
      Except.ok (List.intercalate ['\n']
        ((pages.filterMap id).filter (fun t => !t.isEmpty)))

/-- The dictionary returned by `analyze_resume_file_and_job`. -/
structure AnalyzeResult where
  resumeSkills : List Text
  jobSkills : List Text
  missingSkills : List Text
  atsPercentage : ℚ
deriving DecidableEq, Repr

/-- Source: `analyze_resume_file_and_job`: extract the resume text (propagating the
extraction failure), then extract skills from both texts, compare and score. -/
def analyze_resume_file_and_job (pdf : Except String (List (Option Text)))
    (job_description : Text) : Except String AnalyzeResult :=
  match extract_text_from_pdf pdf with
  | Except.error e => Except.error e
  | Except.ok resume_text =>
      let resume_skills := extract_skills resume_text
      let job_skills := extract_skills job_description
      Except.ok ⟨resume_skills, job_skills, compare_skills resume_skills job_skills,
        calculate_ats_percentage resume_skills job_skills⟩

/-- The whitespace-separated words of a text, in order: the reformattings of
a text into other line-break/whitespace layouts are exactly the texts with
the same `wsWords`. -/
def wsWordsAux (cur : Text) : Text → List Text
  | [] => if cur.isEmpty then [] else [cur.reverse]
  | c :: cs =>
    if isPyWs c then
      if cur.isEmpty then wsWordsAux [] cs else cur.reverse :: wsWordsAux [] cs
    else wsWordsAux (c :: cur) cs

/-- The whitespace-separated words of a text. -/
def wsWords (t : Text) : List Text := wsWordsAux [] t

/-! ## Helper lemmas -/

/-- The three status-restricted enrollment counts of a course partition the
enrollment rows of the course whenever every status is one of the three. -/
lemma countEnrollments_partition (c : Nat) (es : List Enrollment)
    (h : EnrollmentStatusWF es) :
    countEnrollments c "active" es + countEnrollments c "completed" es +
      countEnrollments c "dropped" es = enrolled_student_count c es := by
  induction es with
  | nil => rfl
  | cons e es ih =>
    have he := h e (List.mem_cons_self e es)
    have h2 : EnrollmentStatusWF es := fun x hx => h x (List.mem_cons_of_mem e hx)
    have ih2 := ih h2
    unfold countEnrollments enrolled_student_count at *
    by_cases hc : e.course = c
    · rcases he with h1 | h1 | h1 <;>
        simp only [List.filter_cons, hc, h1, beq_self_eq_true, Bool.true_and,
          Bool.and_true, if_true, List.length_cons] <;>
        simp_all <;> omega
    · have hc' : (e.course == c) = false := by simp [hc]
      simp only [List.filter_cons, hc', Bool.false_and, if_false]
      simpa using ih2

/-- The four status-restricted attendance counts partition the rows whenever
every status is one of the four. -/
lemma countAttendance_partition (rows : List SAttendance)
    (h : AttendanceStatusWF rows) :
    countAttendance "present" rows + countAttendance "absent" rows +
      countAttendance "late" rows + countAttendance "excused" rows = rows.length := by
  induction rows with
  | nil => rfl
  | cons r rows ih =>
    have hr := h r (List.mem_cons_self r rows)
    have h2 : AttendanceStatusWF rows := fun x hx => h x (List.mem_cons_of_mem r hx)
    have ih2 := ih h2
    unfold countAttendance at *
    rcases hr with h1 | h1 | h1 | h1 <;>
      simp only [List.filter_cons, h1, beq_self_eq_true, if_true, List.length_cons] <;>
      simp_all <;> omega

/-! ## Claim theorems -/

/-- C1.  In the course report, the per-course breakdown satisfies
`active + completed + dropped = enrolled_student_count` (and the stored
`total` field agrees), for every course, whenever every enrollment status
lies in the status domain of the spec. -/
theorem course_report_breakdown_invariant (es : List Enrollment)
    (h : EnrollmentStatusWF es) (c : Nat) :
    (course_enrollment_row c es).active + (course_enrollment_row c es).completed +
        (course_enrollment_row c es).dropped = enrolled_student_count c es ∧
      (course_enrollment_row c es).total = enrolled_student_count c es := by
  have key := countEnrollments_partition c es h
  exact ⟨key, key⟩

/-- Witness for C1 at a concrete snapshot of four enrollments in two courses. -/
theorem course_report_breakdown_invariant_witness :
    EnrollmentStatusWF
        [⟨1, 1, "active"⟩, ⟨2, 1, "completed"⟩, ⟨3, 1, "dropped"⟩, ⟨4, 2, "active"⟩] ∧
      ((course_enrollment_row 1
            [⟨1, 1, "active"⟩, ⟨2, 1, "completed"⟩, ⟨3, 1, "dropped"⟩,
              ⟨4, 2, "active"⟩]).active +
          (course_enrollment_row 1
            [⟨1, 1, "active"⟩, ⟨2, 1, "completed"⟩, ⟨3, 1, "dropped"⟩,
              ⟨4, 2, "active"⟩]).completed +
          (course_enrollment_row 1
            [⟨1, 1, "active"⟩, ⟨2, 1, "completed"⟩, ⟨3, 1, "dropped"⟩,
              ⟨4, 2, "active"⟩]).dropped =
        enrolled_student_count 1
          [⟨1, 1, "active"⟩, ⟨2, 1, "completed"⟩, ⟨3, 1, "dropped"⟩,
            ⟨4, 2, "active"⟩]) :=
  ⟨by decide,
    (course_report_breakdown_invariant
      [⟨1, 1, "active"⟩, ⟨2, 1, "completed"⟩, ⟨3, 1, "dropped"⟩, ⟨4, 2, "active"⟩]
      (by decide) 1).1⟩

/-- C2.  The pending amount of the fee report is the sum of invoice totals minus
the sum of payment amounts; it never reads the cached `paid_amount` field
(rewriting that field on every invoice leaves it unchanged); and it is
reported as-is even when negative (concretely `-15` for one invoice of `10`
against a payment of `25`). -/
theorem fee_report_pending_amount :
    (∀ (invs : List FeeInvoice) (pays : List Payment),
        total_pending invs pays = total_invoiced invs - total_paid pays) ∧
      (∀ (invs : List FeeInvoice) (pays : List Payment) (f : FeeInvoice → ℚ),
        total_pending (invs.map (fun i => { i with paid_amount := f i })) pays =
          total_pending invs pays) ∧
      total_pending [⟨1, 10, 0, "pending"⟩] [⟨25, "cash"⟩] = -15 := by
  refine ⟨fun invs pays => rfl, fun invs pays f => ?_, by norm_num [total_pending,
    total_invoiced, total_paid]⟩
  simp only [total_pending, total_invoiced, List.map_map]
  rfl

/-- C9.  The mean experience of the teacher report is `0` over an empty teacher
collection, and over a non-empty one it is the arithmetic mean: the number
of teachers times the reported mean equals the sum of the experience
values. -/
theorem teacher_report_avg_experience :
    avg_experience [] = 0 ∧
      ∀ ts : List Teacher, ts ≠ [] →
        (ts.length : ℚ) * avg_experience ts =
          (ts.map (fun t => (t.experience : ℚ))).sum := by
  refine ⟨rfl, fun ts hts => ?_⟩
  have hlen : (ts.length : ℚ) ≠ 0 := by
    simpa using fun hl => hts (List.length_eq_zero.mp hl)
  simp only [avg_experience, List.isEmpty_iff, if_neg hts]
  rw [mul_comm, div_mul_cancel₀ _ hlen]

/-- Witness for C9 at a concrete two-teacher snapshot. -/
theorem teacher_report_avg_experience_witness :
    ([⟨"male", 4⟩, ⟨"female", 6⟩] : List Teacher) ≠ [] ∧
      ((([⟨"male", 4⟩, ⟨"female", 6⟩] : List Teacher).length : ℚ) *
          avg_experience [⟨"male", 4⟩, ⟨"female", 6⟩] =
        (([⟨"male", 4⟩, ⟨"female", 6⟩] : List Teacher).map
          (fun t => (t.experience : ℚ))).sum) :=
  ⟨by decide,
    teacher_report_avg_experience.2 [⟨"male", 4⟩, ⟨"female", 6⟩] (by decide)⟩

/-- C3.  In the attendance report, the global status counts sum to the total
number of student-attendance rows (whenever every status lies in the
status domain of the spec), and every per-course entry of the `course_attendance` map
carries `present_percentage = present / (present + absent + late + excused) * 100`,
with `0` when that denominator is `0`. -/
theorem attendance_report_breakdown (rows : List SAttendance)
    (h : AttendanceStatusWF rows) :
    (countAttendance "present" rows + countAttendance "absent" rows +
        countAttendance "late" rows + countAttendance "excused" rows = rows.length) ∧
      ∀ (courses : List Nat) (c : Nat) (b : AttendanceBreakdown),
        (c, b) ∈ course_attendance courses rows →
          (b.present + b.absent + b.late + b.excused = 0 → b.present_percentage = 0) ∧
          (b.present + b.absent + b.late + b.excused ≠ 0 →
            b.present_percentage =
              (b.present : ℚ) / ((b.present + b.absent + b.late + b.excused : Nat) : ℚ)
                * 100) := by
  refine ⟨countAttendance_partition rows h, fun courses c b hmem => ?_⟩
  simp only [course_attendance, List.mem_map, List.mem_filter] at hmem
  obtain ⟨c', _, hcb⟩ := hmem
  obtain ⟨rfl, rfl⟩ : c' = c ∧ attendance_breakdown (courseRows c' rows) = b := by
    exact ⟨congrArg Prod.fst hcb, congrArg Prod.snd hcb⟩
  constructor
  · intro h0
    simp only [attendance_breakdown] at h0 ⊢
    simp [h0]
  · intro h0
    simp only [attendance_breakdown] at h0 ⊢
    simp [h0]

/-- Witness for C3 at a concrete three-row snapshot over two courses. -/
theorem attendance_report_breakdown_witness :
    AttendanceStatusWF [⟨1, "present"⟩, ⟨1, "absent"⟩, ⟨2, "late"⟩] ∧
      (countAttendance "present" [⟨1, "present"⟩, ⟨1, "absent"⟩, ⟨2, "late"⟩] +
          countAttendance "absent" [⟨1, "present"⟩, ⟨1, "absent"⟩, ⟨2, "late"⟩] +
          countAttendance "late" [⟨1, "present"⟩, ⟨1, "absent"⟩, ⟨2, "late"⟩] +
          countAttendance "excused" [⟨1, "present"⟩, ⟨1, "absent"⟩, ⟨2, "late"⟩] =
        ([⟨1, "present"⟩, ⟨1, "absent"⟩, ⟨2, "late"⟩] : List SAttendance).length) :=
  ⟨by decide,
    (attendance_report_breakdown [⟨1, "present"⟩, ⟨1, "absent"⟩, ⟨2, "late"⟩]
      (by decide)).1⟩

/-- C10.  The `course_attendance` map of the attendance report has an entry
for a course exactly when the course is in the course snapshot and has at
least one student-attendance row; courses with no rows are omitted
entirely. -/
theorem course_attendance_keys (courses : List Nat) (rows : List SAttendance)
    (c : Nat) :
    (∃ b, (c, b) ∈ course_attendance courses rows) ↔
      c ∈ courses ∧ courseRows c rows ≠ [] := by
  constructor
  · rintro ⟨b, hb⟩
    simp only [course_attendance, List.mem_map, List.mem_filter] at hb
    obtain ⟨c', ⟨hmem, hne⟩, hcb⟩ := hb
    have hc : c' = c := congrArg Prod.fst hcb
    subst hc
    refine ⟨hmem, ?_⟩
    simpa [List.isEmpty_iff] using hne
  · rintro ⟨hmem, hne⟩
    refine ⟨attendance_breakdown (courseRows c rows), ?_⟩
    simp only [course_attendance, List.mem_map, List.mem_filter]
    exact ⟨c, ⟨hmem, by simpa [List.isEmpty_iff] using hne⟩, rfl⟩

/-- C5.  On the text `javascript developer`, the vocabulary entry `java`
(present in the keyword list) is not reported — it occurs only inside the
longer word — while `javascript` is reported as its own term; the full
output is exactly `["Javascript"]`. -/
theorem word_boundary_javascript :
    "java".toList ∈ skillKeywords ∧
      "javascript".toList ∈ skillKeywords ∧
      extract_skills "javascript developer".toList = ["Javascript".toList] ∧
      "Java".toList ∉ extract_skills "javascript developer".toList ∧
      "Javascript".toList ∈ extract_skills "javascript developer".toList := by
  decide

/-- The coverage score as worded by the spec: the cardinality of the
case-insensitive intersection of the two skill sets, over the number of job
skills, times 100, with `0` for an empty job list.  (Stated with `Finset`
intersection; to be compared with `calculate_ats_percentage`, which is
translated from the source.) -/
def specCoverageScore (resume_skills job_skills : List Text) : ℚ :=
  if job_skills = [] then 0
  else
    (((resume_skills.map (fun s => s.map lowerChar)).toFinset ∩
          (job_skills.map (fun s => s.map lowerChar)).toFinset).card : ℚ) /
        (job_skills.length : ℚ) * 100

/-- Counting the deduplicated lowered resume skills that occur among the
lowered job skills computes the cardinality of the set intersection. -/
lemma length_filter_dedup_eq_card_inter (l1 l2 : List Text) :
    ((l1.dedup.filter (fun s => l2.contains s)).length) =
      (l1.toFinset ∩ l2.toFinset).card := by
  rw [← List.toFinset_card_of_nodup ((l1.nodup_dedup).filter _)]
  congr 1
  ext x
  simp [List.mem_filter, List.mem_dedup, List.mem_toFinset, Finset.mem_inter]

/-- C6.  The ATS score equals the spec formula — the size of the
case-insensitive intersection of the skill sets over the job-skill count,
times 100, `0` on an empty job list — and takes the three values required
on the concrete examples of the spec. -/
theorem ats_percentage_spec :
    (∀ resume_skills job_skills,
        calculate_ats_percentage resume_skills job_skills =
          specCoverageScore resume_skills job_skills) ∧
      calculate_ats_percentage [] ["Python".toList] = 0 ∧
      calculate_ats_percentage ["Python".toList] [] = 0 ∧
      calculate_ats_percentage ["Python".toList, "SQL".toList] ["python".toList] = 100 := by
  refine ⟨fun resume_skills job_skills => ?_, ?_, ?_, ?_⟩
  · unfold calculate_ats_percentage specCoverageScore
    by_cases hj : job_skills = []
    · simp [hj]
    · rw [if_neg (by simpa [List.isEmpty_iff] using hj), if_neg hj]
      dsimp only
      rw [length_filter_dedup_eq_card_inter]
  · norm_num [calculate_ats_percentage]
  · rfl
  · norm_num [calculate_ats_percentage]
    decide

/-- C7.  The end-to-end analysis fails exactly when reading the document
artifact fails: a reader failure `e` is propagated to the caller as the
single error `Failed to read PDF file: e`, and on any successfully read
artifact every remaining step is total and a result is returned. -/
theorem analyze_fails_iff_extract_fails
    (pdf : Except String (List (Option Text))) (job : Text) :
    ((∃ e, analyze_resume_file_and_job pdf job = Except.error e) ↔
        (∃ e, extract_text_from_pdf pdf = Except.error e)) ∧
      (∀ e, pdf = Except.error e →
        analyze_resume_file_and_job pdf job =
          Except.error ("Failed to read PDF file: " ++ e)) ∧
      (∀ pages, pdf = Except.ok pages →
        ∃ r, analyze_resume_file_and_job pdf job = Except.ok r) := by
  cases pdf <;>
    simp [analyze_resume_file_and_job, extract_text_from_pdf]

/-- Witness for C7: a reader failure `boom` surfaces as the descriptive
error, via the theorem at the concrete failing artifact. -/
theorem analyze_fails_iff_extract_fails_witness :
    analyze_resume_file_and_job (Except.error "boom") [] =
      Except.error ("Failed to read PDF file: " ++ "boom") :=
  (analyze_fails_iff_extract_fails (Except.error "boom") []).2.1 "boom" rfl

/-- Sorting is a permutation, so it preserves membership. -/
lemma mem_sortLex (a : Text) (l : List Text) : a ∈ sortLex l ↔ a ∈ l :=
  (List.perm_insertionSort _ l).mem_iff

/-- C8.  With the NLP collaborator unavailable the deployed `extract_skills`
is exactly the keyword-only computation (total, hence raising nothing), and
the contribution of the collaborator is strictly additive: every skill of the
keyword-only result also appears in the enriched result, for any token
output of the collaborator. -/
theorem nlp_enrichment_additive :
    (∀ t : Text, extract_skills t = extractSkillsNlp none t) ∧
      ∀ (toks : List Text) (t s : Text),
        s ∈ extract_skills t → s ∈ extractSkillsNlp (some toks) t := by
  refine ⟨fun t => rfl, fun toks t s hs => ?_⟩
  unfold extract_skills at hs
  unfold extractSkillsNlp at hs ⊢
  by_cases ht : t.isEmpty
  · simp [ht] at hs
  · simp only [if_neg ht] at hs ⊢
    rw [mem_sortLex, List.mem_dedup] at hs ⊢
    obtain ⟨k, hk, rfl⟩ := List.mem_map.mp hs
    refine List.mem_map.mpr ⟨k, ?_, rfl⟩
    dsimp only [foundSkills] at hk ⊢
    exact List.mem_append_left _ hk

/-- Witness for C8: the skill `Python` found by keyword matching alone is
still present when the collaborator contributes the token `docker`. -/
theorem nlp_enrichment_additive_witness :
    "Python".toList ∈ extract_skills "python".toList ∧
      "Python".toList ∈ extractSkillsNlp (some ["docker".toList]) "python".toList :=
  ⟨by decide,
    nlp_enrichment_additive.2 ["docker".toList] "python".toList "Python".toList
      (by decide)⟩

/-! ## Whitespace re-formatting and `extract_skills` -/

/-- A re-formatting of the non-space whitespace of a text: a character map
that fixes every character except possibly tab/newline/carriage-return,
which it may exchange among themselves. -/
def SigmaOtherWs (σ : Char → Char) : Prop :=
  ∀ c, σ c = c ∨ (isOtherWs c = true ∧ isOtherWs (σ c) = true)

lemma otherWs_cases {c : Char} (h : isOtherWs c = true) :
    c = '\t' ∨ c = '\n' ∨ c = '\r' := by
  simpa [isOtherWs, or_assoc] using h

lemma lowerChar_otherWs {c : Char} (h : isOtherWs c = true) : lowerChar c = c := by
  rcases otherWs_cases h with rfl | rfl | rfl <;> decide

lemma isWordChar_otherWs {c : Char} (h : isOtherWs c = true) :
    isWordChar c = false := by
  rcases otherWs_cases h with rfl | rfl | rfl <;> decide

lemma toNat_ofNat_valid {n : Nat} (h1 : 97 ≤ n) (h2 : n ≤ 122) :
    (Char.ofNat n).toNat = n := by
  unfold Char.ofNat Char.toNat
  have hv : n.isValidChar := Or.inl (by omega)
  simp [hv, Char.ofNatAux, UInt32.toNat, BitVec.toNat_ofNatLt]

/-- Lower-casing a non-whitespace character never produces whitespace. -/
lemma notOtherWs_lowerChar (c : Char) (hc : isOtherWs c = false) :
    isOtherWs (lowerChar c) = false := by
  unfold lowerChar
  by_cases hr : 65 ≤ c.toNat ∧ c.toNat ≤ 90
  · rw [if_pos hr]
    have ht : (Char.ofNat (c.toNat + 32)).toNat = c.toNat + 32 :=
      toNat_ofNat_valid (by omega) (by omega)
    have h65 := hr.1
    cases h9 : isOtherWs (Char.ofNat (c.toNat + 32))
    · rfl
    · exfalso
      rcases otherWs_cases h9 with he | he | he <;> rw [he] at ht
      · have h9v : ('\t').toNat = 9 := by decide
        omega
      · have h10v : ('\n').toNat = 10 := by decide
        omega
      · have h13v : ('\r').toNat = 13 := by decide
        omega
  · rw [if_neg hr]
    exact hc

lemma sigma_fixes_nonOtherWs {σ : Char → Char} (h : SigmaOtherWs σ) {c : Char}
    (hc : isOtherWs c = false) : σ c = c := by
  rcases h c with h1 | ⟨h1, _⟩
  · exact h1
  · rw [h1] at hc; cases hc

lemma sigma_preimage {σ : Char → Char} (h : SigmaOtherWs σ) {x c : Char}
    (hc : isOtherWs c = false) (hx : σ x = c) : x = c := by
  rcases h x with h1 | ⟨_, h2⟩
  · rw [h1] at hx; exact hx
  · rw [hx] at h2; rw [h2] at hc; cases hc

lemma sigma_lowerChar {σ : Char → Char} (h : SigmaOtherWs σ) (c : Char) :
    lowerChar (σ c) = σ (lowerChar c) := by
  rcases hc : isOtherWs c with _ | _
  · rw [sigma_fixes_nonOtherWs h hc, sigma_fixes_nonOtherWs h (notOtherWs_lowerChar c hc)]
  · have h1 : lowerChar c = c := lowerChar_otherWs hc
    rcases h c with h2 | ⟨_, h3⟩
    · rw [h2, h1, h2]
    · rw [h1, lowerChar_otherWs h3]

lemma isWordChar_sigma {σ : Char → Char} (h : SigmaOtherWs σ) (c : Char) :
    isWordChar (σ c) = isWordChar c := by
  rcases h c with h1 | ⟨h1, h2⟩
  · rw [h1]
  · rw [isWordChar_otherWs h1, isWordChar_otherWs h2]

lemma wordAtIdx_map {σ : Char → Char} (h : SigmaOtherWs σ) (l : Text) (i : Nat) :
    wordAtIdx (l.map σ) i = wordAtIdx l i := by
  unfold wordAtIdx
  rw [List.getElem?_map]
  cases l[i]? with
  | none => rfl
  | some c => exact isWordChar_sigma h c

lemma boundaryAt_map {σ : Char → Char} (h : SigmaOtherWs σ) (l : Text) (i : Nat) :
    boundaryAt (l.map σ) i = boundaryAt l i := by
  unfold boundaryAt
  cases i <;> simp [wordAtIdx_map h]

lemma map_sigma_fixed {σ : Char → Char} (h : SigmaOtherWs σ) {kw : Text}
    (hkw : ∀ ch ∈ kw, isOtherWs ch = false) : kw.map σ = kw := by
  induction kw with
  | nil => rfl
  | cons a l ih =>
    simp only [List.map_cons, List.cons.injEq]
    exact ⟨sigma_fixes_nonOtherWs h (hkw a (List.mem_cons_self a l)),
      ih (fun ch hch => hkw ch (List.mem_cons_of_mem a hch))⟩

lemma map_sigma_eq_iff {σ : Char → Char} (h : SigmaOtherWs σ) {kw s : Text}
    (hkw : ∀ ch ∈ kw, isOtherWs ch = false) : s.map σ = kw ↔ s = kw := by
  constructor
  · induction s generalizing kw with
    | nil => intro he; simpa using he
    | cons a s ih =>
      intro he
      cases kw with
      | nil => simp at he
      | cons b kw' =>
        simp only [List.map_cons, List.cons.injEq] at he
        obtain ⟨h1, h2⟩ := he
        have hb : isOtherWs b = false := hkw b (List.mem_cons_self b kw')
        have ha : a = b := sigma_preimage h hb h1
        have hs : s = kw' :=
          ih (fun ch hch => hkw ch (List.mem_cons_of_mem b hch)) h2
        rw [ha, hs]
  · rintro rfl
    exact map_sigma_fixed h hkw

lemma any_congrHelper {α : Type} (l : List α) {f g : α → Bool}
    (h : ∀ a ∈ l, f a = g a) : l.any f = l.any g := by
  induction l with
  | nil => rfl
  | cons a l ih =>
    simp only [List.any_cons, h a (List.mem_cons_self a l)]
    rw [ih (fun x hx => h x (List.mem_cons_of_mem a hx))]

lemma occursAt_map {σ : Char → Char} (h : SigmaOtherWs σ) {kw : Text}
    (hkw : ∀ ch ∈ kw, isOtherWs ch = false) (l : Text) (i : Nat) :
    occursAt kw (l.map σ) i = occursAt kw l i := by
  unfold occursAt
  rw [← List.map_drop, ← List.map_take]
  simp only [decide_eq_decide]
  exact map_sigma_eq_iff h hkw

lemma isSubstringOf_map {σ : Char → Char} (h : SigmaOtherWs σ) {kw : Text}
    (hkw : ∀ ch ∈ kw, isOtherWs ch = false) (l : Text) :
    isSubstringOf kw (l.map σ) = isSubstringOf kw l := by
  unfold isSubstringOf
  rw [List.length_map]
  exact any_congrHelper _ (fun i _ => occursAt_map h hkw l i)

lemma matchesWholeWord_map {σ : Char → Char} (h : SigmaOtherWs σ) {kw : Text}
    (hkw : ∀ ch ∈ kw, isOtherWs ch = false) (l : Text) :
    matchesWholeWord kw (l.map σ) = matchesWholeWord kw l := by
  unfold matchesWholeWord
  rw [List.length_map]
  refine any_congrHelper _ (fun i _ => ?_)
  rw [boundaryAt_map h, occursAt_map h hkw, boundaryAt_map h]

/-- No character of any vocabulary term is non-space whitespace. -/
lemma kwChars_not_otherWs : ∀ kw ∈ skillKeywords, ∀ ch ∈ kw, isOtherWs ch = false := by
  decide

lemma keywordFound_map {σ : Char → Char} (h : SigmaOtherWs σ) {kw : Text}
    (hkw : ∀ ch ∈ kw, isOtherWs ch = false) (l : Text) :
    keywordFound (l.map σ) kw = keywordFound l kw := by
  unfold keywordFound
  by_cases hsp : kw.contains ' '
  · simp only [hsp, if_true]
    exact isSubstringOf_map h hkw l
  · simp only [hsp, if_false]
    exact matchesWholeWord_map h hkw l

lemma foundSkills_map {σ : Char → Char} (h : SigmaOtherWs σ) (t : Text) :
    foundSkills none (t.map σ) = foundSkills none t := by
  dsimp only [foundSkills]
  have hcomm : (t.map σ).map lowerChar = (t.map lowerChar).map σ := by
    rw [List.map_map, List.map_map]
    congr 1
    funext c
    exact sigma_lowerChar h c
  rw [hcomm]
  exact List.filter_congr
    (fun kw hkw => keywordFound_map h (kwChars_not_otherWs kw hkw) (t.map lowerChar))

/-- C4 counterexample.  Re-writing the space of `machine learning` as a
newline is a pure line-break/whitespace re-formatting — the character map
sending space to newline, the whitespace-separated words unchanged — yet it
changes the extracted skill set from `["Machine Learning"]` to `[]`. -/
theorem extract_skills_ws_counterexample :
    "machine\nlearning".toList =
        "machine learning".toList.map (fun c => if c = ' ' then '\n' else c) ∧
      wsWords "machine learning".toList = wsWords "machine\nlearning".toList ∧
      extract_skills "machine learning".toList = ["Machine Learning".toList] ∧
      extract_skills "machine\nlearning".toList = [] ∧
      extract_skills "machine learning".toList ≠
        extract_skills "machine\nlearning".toList := by
  decide

/-- C4 as amended.  Running `extract_skills` twice on the same text yields
identical output (it is a pure function of the text), and the skill set is
unchanged under re-formattings that exchange the non-space whitespace
characters (tab, newline, carriage return) among themselves; invariance
under re-formattings that touch spaces fails, as multi-word vocabulary
terms are matched as literal single-space substrings. -/
theorem extract_skills_otherws_invariant (σ : Char → Char) (h : SigmaOtherWs σ)
    (t : Text) : extract_skills (t.map σ) = extract_skills t := by
  unfold extract_skills extractSkillsNlp
  have hie : (t.map σ).isEmpty = t.isEmpty := by cases t <;> simp
  rw [hie, foundSkills_map h t]

/-- Witness for C4 as amended: exchanging newlines for tabs in a text leaves
the extracted skills unchanged. -/
theorem extract_skills_otherws_invariant_witness :
    extract_skills
        ("machine\nlearning and python".toList.map
          (fun c => if c = '\n' then '\t' else c)) =
      extract_skills "machine\nlearning and python".toList :=
  extract_skills_otherws_invariant (fun c => if c = '\n' then '\t' else c)
    (by
      intro c
      by_cases hc : c = '\n'
      · subst hc
        exact Or.inr ⟨by decide, by decide⟩
      · simp [hc])
    "machine\nlearning and python".toList

end ProjectRoar
